import Mathlib

/-!
Shallow embedding of `build_assets.py`, the AppGameKit asset packer:
directory scanning with exclusion rules, manifest construction with
4-byte-aligned offsets, per-file XOR enciphering, and archive
serialization.

Bytes are modelled as `Nat` values; byte strings as `List Nat`.
Filesystem-derived values (`os.walk` order, normalized absolute paths,
file contents) are inputs to the embedding: a `Candidate` packages, for
one file yielded by the walk, the base name, the slash-normalized
relative path, the value of `os.path.normcase(os.path.abspath(file_path))`,
and the file's bytes.
-/

/-- One file yielded by `os.walk` (`build_assets.py` lines 38-49), with the
filesystem-derived values the packer computes for it. `content` models both
`os.path.getsize(file_path)` (its length) and the later `source_f.read()`:
the pipeline is single-threaded with no concurrent modification of the
source tree. `normAbsPath` is `os.path.normcase(os.path.abspath(file_path))`. -/
structure Candidate where
  name : String
  relPath : String
  normAbsPath : String
  content : List Nat
  deriving DecidableEq, Repr

/-- One manifest record built at `build_assets.py` lines 56-61. -/
structure ManifestEntry where
  path : String
  offset : Nat
  length : Nat
  padded_length : Nat
  deriving DecidableEq, Repr

/-- UTF-8 encoding of one code point, as Python's `str.encode('utf-8')`
produces for each character. -/
def utf8EncodeChar (c : Nat) : List Nat :=
  if c < 128 then [c]
  else if c < 2048 then [192 + c / 64, 128 + c % 64]
  else if c < 65536 then [224 + c / 4096, 128 + c / 64 % 64, 128 + c % 64]
  else [240 + c / 262144, 128 + c / 4096 % 64, 128 + c / 64 % 64, 128 + c % 64]

/-- Embedding of `s.encode('utf-8')`: the UTF-8 bytes of a string. Python's
`len` on the string itself counts characters; `(utf8Bytes s).length` counts
bytes. -/
def utf8Bytes (s : String) : List Nat :=
  (s.data.map fun c => utf8EncodeChar c.toNat).flatten

/-- The indexed XOR loop inside `xor_encrypt` (line 22): the byte at running
index `i` is combined with `key_bytes[i % key_len]`. -/
def xorWithKey (keyBytes : List Nat) : Nat → List Nat → List Nat
  | _, [] => []
  | i, b :: rest =>
    (b ^^^ keyBytes.getD (i % keyBytes.length) 0) :: xorWithKey keyBytes (i + 1) rest

/-- Embedding of `xor_encrypt(data, key)` (lines 18-22): encode the key to
UTF-8 bytes, then XOR byte `i` of the input with key byte `i % key_len`,
the index starting at 0 for this call. -/
def xor_encrypt (data : List Nat) (key : String) : List Nat :=
  xorWithKey (utf8Bytes key) 0 data

/-- Embedding of `padded_size = (file_size + 3) & ~3` (line 52): Python's
`& ~3` on a non-negative int clears the two low bits, i.e. subtracts
`(n + 3) % 4` from `n + 3`. -/
def padUp4 (n : Nat) : Nat := (n + 3) - (n + 3) % 4

/-- Embedding of the writer's padding step (lines 93-95): compute
`padding = (4 - (len(file_data) % 4)) % 4` and append that many zero bytes
when positive. -/
def padBytes (file_data : List Nat) : List Nat :=
  let padding := (4 - file_data.length % 4) % 4
  if padding > 0 then file_data ++ List.replicate padding 0 else file_data

/-- Embedding of the walk's exclusion tests (lines 42-46), including the
redundant second output-path check: a candidate is kept when neither
`continue` fires. `absOutputPath` stands for
`os.path.normcase(os.path.abspath(output_file))`. -/
def scan (cands : List Candidate) (absOutputPath : String) : List Candidate :=
  cands.filter fun c =>
    !(c.name == "bytecode.byc" || c.normAbsPath == absOutputPath)
      && !(c.normAbsPath == absOutputPath)

/-- Embedding of the manifest-building loop (lines 48-64): a left fold over
the kept candidates threading `current_offset`, which starts at 0 and
advances by the padded size of each file. -/
def buildManifest : List Candidate → Nat → List ManifestEntry
  | [], _ => []
  | c :: rest, current_offset =>
    { path := c.relPath
      offset := current_offset
      length := c.content.length
      padded_length := padUp4 c.content.length } ::
      buildManifest rest (current_offset + padUp4 c.content.length)

/-- Embedding of `n.to_bytes(4, byteorder='little')`: four little-endian
bytes when `n < 2^32`, and `none` for the `OverflowError` Python raises
otherwise. -/
def toBytesLE4? (n : Nat) : Option (List Nat) :=
  if n < 4294967296 then
    some [n % 256, n / 256 % 256, n / 65536 % 256, n / 16777216 % 256]
  else none

/-- Embedding of the manifest-entry write loop (lines 80-85): for each
entry, append the path byte length, the path bytes, the offset and the
length to the bytes written so far. -/
def writeManifestEntries : List ManifestEntry → List Nat → Option (List Nat)
  | [], acc => some acc
  | item :: rest, acc =>
    let path_bytes := utf8Bytes item.path
    match toBytesLE4? path_bytes.length, toBytesLE4? item.offset, toBytesLE4? item.length with
    | some pl, some ob, some lb => writeManifestEntries rest (acc ++ pl ++ path_bytes ++ ob ++ lb)
    | _, _, _ => none

/-- Embedding of the blob write loop (lines 88-98): each kept file is read,
padded to a 4-byte boundary, enciphered with the key, and appended. -/
def writeBlob : List Candidate → String → List Nat → List Nat
  | [], _, acc => acc
  | c :: rest, key, acc => writeBlob rest key (acc ++ xor_encrypt (padBytes c.content) key)

/-- Outcome of `create_asset_pack`: the early return on an empty manifest
(lines 66-68), an `OverflowError` raised by `int.to_bytes`, or the bytes
written to the output file. -/
inductive PackResult where
  | noFiles : PackResult
  | overflowError : PackResult
  | written : List Nat → PackResult
  deriving DecidableEq, Repr

/-- Embedding of `create_asset_pack(source_dir, output_file)` (lines
24-98), with the walk's candidate sequence, the normalized absolute output
path and the global `XOR_KEY` as explicit inputs. -/
def create_asset_pack (cands : List Candidate) (absOutputPath : String) (key : String) :
    PackResult :=
  let scanned := scan cands absOutputPath
  let manifest := buildManifest scanned 0
  if manifest.isEmpty then PackResult.noFiles
  else
    match toBytesLE4? manifest.length with
    | none => PackResult.overflowError
    | some header =>
      match writeManifestEntries manifest header with
      | none => PackResult.overflowError
      | some headerAndManifest => PackResult.written (writeBlob scanned key headerAndManifest)

/-- Outcome of the `__main__` block: abort on a bad key length (lines
116-118), abort on a missing source directory (lines 120-122), or a
completed call to `create_asset_pack`. -/
inductive MainResult where
  | abortBadKey : MainResult
  | abortNoSourceDir : MainResult
  | ran : PackResult → MainResult
  deriving DecidableEq, Repr

/-- Embedding of the `__main__` block (lines 105-124): the key guard
`len(XOR_KEY) != 32` runs before any filesystem interaction; Python's `len`
on a `str` counts characters, embedded as `String.length`. -/
def mainRun (key : String) (sourceIsDir : Bool) (cands : List Candidate)
    (absOutputPath : String) : MainResult :=
  if key.length ≠ 32 then MainResult.abortBadKey
  else if !sourceIsDir then MainResult.abortNoSourceDir
  else MainResult.ran (create_asset_pack cands absOutputPath key)

/-- True when a run reached `create_asset_pack` and wrote archive bytes. -/
def MainResult.wroteOutput : MainResult → Bool
  | .ran (.written _) => true
  | _ => false

/-- Little-endian four-byte layout of a u32 value, as the archive format of
spec section 6 describes each integer field. -/
def le4 (n : Nat) : List Nat := [n % 256, n / 256 % 256, n / 65536 % 256, n / 16777216 % 256]

/-- Serialized form of one manifest entry as spec section 4.4 describes it:
path byte length, path bytes with no terminator, offset, length. -/
def specEntryBytes (e : ManifestEntry) : List Nat :=
  le4 (utf8Bytes e.path).length ++ utf8Bytes e.path ++ le4 e.offset ++ le4 e.length

/-- The data blob as the concatenation of per-file enciphered padded
payloads, in traversal order with no separators. -/
def blobList (cs : List Candidate) (key : String) : List Nat :=
  (cs.map fun c => xor_encrypt (padBytes c.content) key).flatten

/-- Sum of the 4-byte-aligned payload sizes of a candidate list. -/
def sumPad (cs : List Candidate) : Nat :=
  (cs.map fun c => padUp4 c.content.length).sum

/-- Bounds under which every `int.to_bytes(4, 'little')` call for one
manifest entry succeeds. -/
def entryFits (e : ManifestEntry) : Prop :=
  (utf8Bytes e.path).length < 4294967296 ∧ e.offset < 4294967296 ∧ e.length < 4294967296

instance : DecidablePred entryFits := fun e => by
  unfold entryFits; infer_instance

/-- Modelled from the spec: the loader (`pack_loader.agc`, referenced by the
packer but not part of `src/`) decrypts a slice of the blob by XORing byte
`j` with key byte `j mod 32`, with `j` local to the slice (spec sections
4.3 and 6). -/
def xorDecrypt32 (keyBytes : List Nat) : Nat → List Nat → List Nat
  | _, [] => []
  | j, b :: rest => (b ^^^ keyBytes.getD (j % 32) 0) :: xorDecrypt32 keyBytes (j + 1) rest

/-- Placeholder candidate used as a `getD` default. -/
def dCand : Candidate := ⟨"", "", "", []⟩

/-- Placeholder manifest entry used as a `getD` default. -/
def dEntry : ManifestEntry := ⟨"", 0, 0, 0⟩

namespace AGK

/-- The XOR loop preserves the payload length. -/
theorem xorWithKey_length (kb : List Nat) (i : Nat) (d : List Nat) :
    (xorWithKey kb i d).length = d.length := by
  induction d generalizing i with
  | nil => rfl
  | cons b rest ih => simp [xorWithKey, ih]

/-- `xor_encrypt` preserves the payload length. -/
theorem xor_encrypt_length (d : List Nat) (key : String) :
    (xor_encrypt d key).length = d.length :=
  xorWithKey_length _ _ _

/-- Running the XOR loop twice from the same starting index is the
identity. -/
theorem xorWithKey_xorWithKey (kb : List Nat) (i : Nat) (d : List Nat) :
    xorWithKey kb i (xorWithKey kb i d) = d := by
  induction d generalizing i with
  | nil => rfl
  | cons b rest ih => simp [xorWithKey, ih, Nat.xor_cancel_right]

/-- Pointwise description of the XOR loop: the byte at position `j` of the
output combines input byte `j` with key byte `(i + j) % key_len`. -/
theorem xorWithKey_getD (kb : List Nat) (d : List Nat) (i j : Nat) (hj : j < d.length) :
    (xorWithKey kb i d).getD j 0 = d.getD j 0 ^^^ kb.getD ((i + j) % kb.length) 0 := by
  induction d generalizing i j with
  | nil => simp at hj
  | cons b rest ih =>
    cases j with
    | zero => simp [xorWithKey]
    | succ j' =>
      simp only [xorWithKey, List.getD_cons_succ]
      rw [ih (i + 1) j' (by simpa using hj)]
      have harg : i + 1 + j' = i + (j' + 1) := by omega
      rw [harg]

/-- The loader's transform agrees with the packer's XOR loop whenever the
key is exactly 32 bytes. -/
theorem xorDecrypt32_eq_xorWithKey (kb : List Nat) (hkb : kb.length = 32)
    (j : Nat) (d : List Nat) :
    xorDecrypt32 kb j d = xorWithKey kb j d := by
  induction d generalizing j with
  | nil => rfl
  | cons b rest ih => simp [xorDecrypt32, xorWithKey, hkb, ih]

/-- The manifest's rounding matches content length plus pad count. -/
theorem padUp4_eq (L : Nat) : padUp4 L = L + (4 - L % 4) % 4 := by
  unfold padUp4; omega

/-- The writer's padding step appends exactly the computed zero bytes. -/
theorem padBytes_eq (d : List Nat) :
    padBytes d = d ++ List.replicate ((4 - d.length % 4) % 4) 0 := by
  unfold padBytes
  by_cases h : (4 - d.length % 4) % 4 > 0
  · simp [h]
  · have h0 : (4 - d.length % 4) % 4 = 0 := by omega
    simp [h0]

/-- The padded payload is `padUp4` of the content length long. -/
theorem padBytes_length (d : List Nat) : (padBytes d).length = padUp4 d.length := by
  rw [padBytes_eq, padUp4_eq]
  simp

/-- Truncating the padded payload to the content length recovers the
content. -/
theorem padBytes_take (d : List Nat) : (padBytes d).take d.length = d := by
  rw [padBytes_eq]
  exact List.take_left d _

/-- The fold producing the manifest yields one entry per kept candidate. -/
theorem buildManifest_length (l : List Candidate) (cur : Nat) :
    (buildManifest l cur).length = l.length := by
  induction l generalizing cur with
  | nil => rfl
  | cons c rest ih => simp [buildManifest, ih]

/-- Unfolding `sumPad` over a cons cell. -/
theorem sumPad_cons (c : Candidate) (cs : List Candidate) :
    sumPad (c :: cs) = padUp4 c.content.length + sumPad cs := by
  simp [sumPad]

/-- Closed form of the manifest fold: the entry at index `i` records the
candidate's relative path, the cursor plus the padded sizes of all earlier
candidates, the content length, and its rounded value. -/
theorem buildManifest_getD (l : List Candidate) (cur i : Nat) (hi : i < l.length) :
    (buildManifest l cur).getD i dEntry =
      { path := (l.getD i dCand).relPath
        offset := cur + sumPad (l.take i)
        length := (l.getD i dCand).content.length
        padded_length := padUp4 (l.getD i dCand).content.length } := by
  induction l generalizing cur i with
  | nil => simp at hi
  | cons c rest ih =>
    cases i with
    | zero => simp [buildManifest, sumPad]
    | succ i' =>
      simp only [buildManifest, List.getD_cons_succ, List.take_succ_cons, sumPad_cons]
      rw [ih (cur + padUp4 c.content.length) i' (by simpa using hi)]
      congr 1
      omega

/-- The padded sizes recorded in the manifest are the padded content sizes
of the kept candidates, positionally. -/
theorem buildManifest_map_pad (l : List Candidate) (cur : Nat) :
    (buildManifest l cur).map (fun e => padUp4 e.length) =
      l.map fun c => padUp4 c.content.length := by
  induction l generalizing cur with
  | nil => rfl
  | cons c rest ih => simp [buildManifest, ih]

/-- The blob writer appends `blobList` to the bytes written so far. -/
theorem writeBlob_eq (l : List Candidate) (key : String) (acc : List Nat) :
    writeBlob l key acc = acc ++ blobList l key := by
  induction l generalizing acc with
  | nil => simp [writeBlob, blobList]
  | cons c rest ih => simp [writeBlob, blobList, ih]

/-- Unfolding `blobList` over a cons cell. -/
theorem blobList_cons (c : Candidate) (rest : List Candidate) (key : String) :
    blobList (c :: rest) key =
      xor_encrypt (padBytes c.content) key ++ blobList rest key := by
  simp [blobList]

/-- Each enciphered padded payload occupies exactly the padded size. -/
theorem piece_length (c : Candidate) (key : String) :
    (xor_encrypt (padBytes c.content) key).length = padUp4 c.content.length := by
  rw [xor_encrypt_length, padBytes_length]

/-- The blob occupies exactly the sum of the padded sizes. -/
theorem blobList_length (l : List Candidate) (key : String) :
    (blobList l key).length = sumPad l := by
  induction l with
  | nil => rfl
  | cons c rest ih => rw [blobList_cons, List.length_append, piece_length, ih, sumPad_cons]

/-- Dropping the padded sizes of the first `i` files lands exactly on the
`i`-th file's payload. -/
theorem blobList_drop (l : List Candidate) (key : String) (i : Nat) :
    (blobList l key).drop (sumPad (l.take i)) = blobList (l.drop i) key := by
  induction i generalizing l with
  | zero => simp [sumPad]
  | succ i' ih =>
    cases l with
    | nil => simp [sumPad, blobList]
    | cons c rest =>
      simp only [List.take_succ_cons, List.drop_succ_cons, sumPad_cons, blobList_cons]
      rw [← piece_length c key, ← List.drop_drop, List.drop_left]
      exact ih rest

/-- The head payload of the blob is the head file's enciphered padded
content. -/
theorem blobList_take_head (c : Candidate) (rest : List Candidate) (key : String) :
    (blobList (c :: rest) key).take (padUp4 c.content.length) =
      xor_encrypt (padBytes c.content) key := by
  rw [blobList_cons, ← piece_length c key, List.take_left]

/-- Dropping at an in-range index exposes the element there. -/
theorem drop_getD_cons (l : List Candidate) (i : Nat) (hi : i < l.length) :
    l.drop i = l.getD i dCand :: l.drop (i + 1) := by
  rw [List.getD_eq_getElem l dCand hi]
  exact List.drop_eq_getElem_cons hi

/-- Values below `2^32` serialize to their four little-endian bytes. -/
theorem toBytesLE4_eq (n : Nat) (h : n < 4294967296) : toBytesLE4? n = some (le4 n) := by
  simp [toBytesLE4?, le4, h]

/-- Every candidate the scanner keeps passed both exclusion tests. -/
theorem scan_mem (cands : List Candidate) (absOut : String) (c : Candidate)
    (hc : c ∈ scan cands absOut) :
    c.name ≠ "bytecode.byc" ∧ c.normAbsPath ≠ absOut := by
  unfold scan at hc
  rw [List.mem_filter] at hc
  obtain ⟨-, hp⟩ := hc
  simp only [Bool.and_eq_true, Bool.not_eq_true', Bool.or_eq_false_iff,
    beq_eq_false_iff_ne, ne_eq] at hp
  exact ⟨hp.1.1, hp.1.2⟩

/-- The manifest-entry write loop, on entries whose fields all fit in u32,
appends exactly the concatenated spec-layout entry records. -/
theorem writeManifestEntries_eq (m : List ManifestEntry) (acc : List Nat)
    (hf : ∀ e ∈ m, entryFits e) :
    writeManifestEntries m acc = some (acc ++ (m.map specEntryBytes).flatten) := by
  induction m generalizing acc with
  | nil => simp [writeManifestEntries]
  | cons e rest ih =>
    obtain ⟨h1, h2, h3⟩ := hf e (List.mem_cons_self _ _)
    simp only [writeManifestEntries]
    rw [toBytesLE4_eq _ h1, toBytesLE4_eq _ h2, toBytesLE4_eq _ h3]
    have ih' := ih (acc ++ le4 (utf8Bytes e.path).length ++ utf8Bytes e.path
        ++ le4 e.offset ++ le4 e.length) fun x hx => hf x (List.mem_cons_of_mem _ hx)
    simp only [List.append_assoc] at ih'
    simp [ih', specEntryBytes]

/-- When at least one file survives scanning and every manifest field fits
in u32, `create_asset_pack` writes header, manifest records and blob, in
that order. -/
theorem create_asset_pack_written (cands : List Candidate) (absOut key : String)
    (hne : scan cands absOut ≠ [])
    (hcount : (scan cands absOut).length < 4294967296)
    (hf : ∀ e ∈ buildManifest (scan cands absOut) 0, entryFits e) :
    create_asset_pack cands absOut key =
      PackResult.written
        (le4 (buildManifest (scan cands absOut) 0).length
          ++ ((buildManifest (scan cands absOut) 0).map specEntryBytes).flatten
          ++ blobList (scan cands absOut) key) := by
  have hlen := buildManifest_length (scan cands absOut) 0
  have hm0 : buildManifest (scan cands absOut) 0 ≠ [] := by
    intro h
    apply hne
    have hl := congrArg List.length h
    rw [hlen] at hl
    exact List.length_eq_zero.mp hl
  unfold create_asset_pack
  dsimp only
  rw [List.isEmpty_eq_false.mpr hm0]
  rw [toBytesLE4_eq _ (by rw [hlen]; exact hcount)]
  simp [writeManifestEntries_eq _ _ hf, writeBlob_eq]

/-- `sumPad` distributes over concatenation. -/
theorem sumPad_append (a b : List Candidate) : sumPad (a ++ b) = sumPad a + sumPad b := by
  simp [sumPad]

/-- Extending a prefix by one candidate adds that candidate's padded size. -/
theorem sumPad_take_succ (l : List Candidate) (i : Nat) (hi : i < l.length) :
    sumPad (l.take (i + 1)) = sumPad (l.take i) + padUp4 (l.getD i dCand).content.length := by
  have h1 : l.take (i + 1) = l.take i ++ (l.drop i).take 1 := List.take_add l i 1
  rw [h1, sumPad_append, drop_getD_cons l i hi]
  simp [sumPad]

/-- Reading a dropped list at `j` reads the original at `a + j`; out of
range both sides give the default. -/
theorem getD_drop (l : List Nat) (a j : Nat) :
    (l.drop a).getD j 0 = l.getD (a + j) 0 := by
  induction a generalizing l with
  | zero => simp
  | succ a' ih =>
    cases l with
    | nil => simp
    | cons x xs =>
      rw [List.drop_succ_cons, ih xs]
      have harg : a' + 1 + j = (a' + j) + 1 := by omega
      rw [harg, List.getD_cons_succ]

/-- `create_asset_pack` takes the "no files found" early exit exactly when
the scan keeps nothing. -/
theorem create_asset_pack_noFiles_iff (cands : List Candidate) (absOut key : String) :
    create_asset_pack cands absOut key = PackResult.noFiles ↔ scan cands absOut = [] := by
  unfold create_asset_pack
  dsimp only
  rcases h : scan cands absOut with _ | ⟨c, rest⟩
  · simp [buildManifest]
  · simp only [buildManifest, List.isEmpty_cons, Bool.false_eq_true, if_false]
    constructor
    · intro hres
      exfalso
      revert hres
      split
      · intro hres; exact PackResult.noConfusion hres
      · split
        · intro hres; exact PackResult.noConfusion hres
        · intro hres; exact PackResult.noConfusion hres
    · intro hres; exact List.noConfusion hres

end AGK

/-- C7: for a file of length `L`, the writer's padding is exactly
`(4 - L % 4) % 4` zero bytes appended after the content (none when
`L % 4 = 0`), the manifest's padded length `(L + 3) & ~3` equals `L` plus
that pad count, and zero-length files occupy zero padded bytes. -/
theorem C7_padding (L : Nat) :
    padUp4 L = L + (4 - L % 4) % 4 ∧
      (L % 4 = 0 → (4 - L % 4) % 4 = 0) ∧
      padUp4 0 = 0 ∧
      ∀ data : List Nat, data.length = L →
        padBytes data = data ++ List.replicate ((4 - L % 4) % 4) 0 := by
  refine ⟨AGK.padUp4_eq L, by omega, by decide, ?_⟩
  intro data h
  rw [AGK.padBytes_eq, h]

/-- Witness for C7 at `L = 5` with a concrete 5-byte payload. -/
theorem C7_witness :
    padUp4 5 = 5 + (4 - 5 % 4) % 4 ∧
      (5 % 4 = 0 → (4 - 5 % 4) % 4 = 0) ∧
      padUp4 0 = 0 ∧
      ∀ data : List Nat, data.length = 5 →
        padBytes data = data ++ List.replicate ((4 - 5 % 4) % 4) 0 :=
  C7_padding 5

/-- C10: for a key with non-empty UTF-8 encoding, `xor_encrypt` returns
exactly as many bytes as its input, so the blob written by the packer
occupies exactly the sum of the padded sizes of the kept files. -/
theorem C10_xor_length (data : List Nat) (key : String)
    (hk : utf8Bytes key ≠ []) :
    (xor_encrypt data key).length = data.length ∧
      ∀ (cands : List Candidate) (absOut : String),
        (writeBlob (scan cands absOut) key []).length = sumPad (scan cands absOut) := by
  refine ⟨AGK.xor_encrypt_length data key, ?_⟩
  intro cands absOut
  rw [AGK.writeBlob_eq, List.nil_append, AGK.blobList_length]

/-- Witness for C10 at a concrete payload and the repository's key. -/
theorem C10_witness :
    utf8Bytes "my-secret-game-key-32-bytes!!!!!" ≠ [] ∧
      ((xor_encrypt [1, 2, 3] "my-secret-game-key-32-bytes!!!!!").length = [1, 2, 3].length ∧
        ∀ (cands : List Candidate) (absOut : String),
          (writeBlob (scan cands absOut) "my-secret-game-key-32-bytes!!!!!" []).length =
            sumPad (scan cands absOut)) :=
  ⟨by decide, C10_xor_length [1, 2, 3] "my-secret-game-key-32-bytes!!!!!" (by decide)⟩

/-- C3: in a non-empty manifest the first entry's offset is 0 and each next
entry's offset is the previous offset plus the previous length rounded up
to a multiple of 4 — the offsets are the left fold of padded sizes with
cursor starting at 0. -/
theorem C3_offset_invariant (cands : List Candidate) (absOut : String)
    (hne : buildManifest (scan cands absOut) 0 ≠ []) :
    ((buildManifest (scan cands absOut) 0).getD 0 dEntry).offset = 0 ∧
      ∀ i, i + 1 < (buildManifest (scan cands absOut) 0).length →
        ((buildManifest (scan cands absOut) 0).getD (i + 1) dEntry).offset =
          ((buildManifest (scan cands absOut) 0).getD i dEntry).offset +
            padUp4 ((buildManifest (scan cands absOut) 0).getD i dEntry).length := by
  have hlen := AGK.buildManifest_length (scan cands absOut) 0
  have h0 : 0 < (scan cands absOut).length := by
    rcases hsc : scan cands absOut with _ | ⟨c, rest⟩
    · exact absurd (by rw [hsc]; rfl) hne
    · simp
  constructor
  · rw [AGK.buildManifest_getD _ 0 0 h0]
    simp [sumPad]
  · intro i hi1
    have hi1' : i + 1 < (scan cands absOut).length := by rw [hlen] at hi1; exact hi1
    have hi' : i < (scan cands absOut).length := by omega
    rw [AGK.buildManifest_getD _ 0 (i + 1) hi1', AGK.buildManifest_getD _ 0 i hi']
    dsimp only
    rw [AGK.sumPad_take_succ _ i hi']
    omega

/-- C6: every file the scanner keeps — hence every file a manifest entry
describes — is not named `bytecode.byc` and does not resolve to the
normalized absolute output path. -/
theorem C6_exclusion (cands : List Candidate) (absOut : String) (i : Nat)
    (hi : i < (buildManifest (scan cands absOut) 0).length) :
    ((scan cands absOut).getD i dCand).name ≠ "bytecode.byc" ∧
      ((scan cands absOut).getD i dCand).normAbsPath ≠ absOut := by
  have hlen := AGK.buildManifest_length (scan cands absOut) 0
  have hi' : i < (scan cands absOut).length := by rw [hlen] at hi; exact hi
  have hmem : (scan cands absOut).getD i dCand ∈ scan cands absOut := by
    rw [List.getD_eq_getElem _ _ hi']
    exact List.getElem_mem hi'
  exact AGK.scan_mem cands absOut _ hmem

/-- C8: the run reports "no files found" and writes nothing exactly when
zero eligible files survive the exclusions, and a written archive always
comes from a non-empty scan — never a silent zero-entry archive. -/
theorem C8_empty_result (cands : List Candidate) (absOut key : String) :
    (create_asset_pack cands absOut key = PackResult.noFiles ↔ scan cands absOut = []) ∧
      ∀ out : List Nat, create_asset_pack cands absOut key = PackResult.written out →
        scan cands absOut ≠ [] := by
  refine ⟨AGK.create_asset_pack_noFiles_iff cands absOut key, ?_⟩
  intro out hw hsc
  have hnf := (AGK.create_asset_pack_noFiles_iff cands absOut key).mpr hsc
  rw [hw] at hnf
  exact PackResult.noConfusion hnf

/-- C5 amended: the `__main__` guard compares the key's character count
with 32, aborting before any filesystem interaction exactly when the key
does not have 32 characters; a 32-character key passes the guard even when
its UTF-8 byte length is not 32. -/
theorem C5_key_guard (key : String) (sourceIsDir : Bool) (cands : List Candidate)
    (absOut : String) :
    mainRun key sourceIsDir cands absOut = MainResult.abortBadKey ↔ key.length ≠ 32 := by
  by_cases h : key.length = 32
  · cases sourceIsDir <;> simp [mainRun, h]
  · simp [mainRun, h]

/-- Key with 32 characters whose UTF-8 encoding is 33 bytes long. -/
def oddKey : String := "0123456789012345678901234567890é"

/-- Concrete candidate used in the C5 counterexample run. -/
def c5cand : Candidate := ⟨"a.txt", "a.txt", "/src/a.txt", [10, 20, 30]⟩

/-- C5 counterexample: `oddKey` has UTF-8 byte length 33, not 32, yet the
run does not abort on the key guard — it reaches `create_asset_pack` and
writes archive bytes, because the guard checks `len` of the `str`, which
counts characters. -/
theorem C5_counterexample :
    (utf8Bytes oddKey).length ≠ 32 ∧
      (mainRun oddKey true [c5cand] "/out/assets.pak").wroteOutput = true := by
  exact ⟨by decide, by decide⟩

/-- Witness for C5's amended guard at a concrete short key. -/
theorem C5_witness :
    mainRun "short" true [] "/out/assets.pak" = MainResult.abortBadKey :=
  (C5_key_guard "short" true [] "/out/assets.pak").mpr (by decide)

/-- C1: round-trip — for each manifest entry, taking `round_up_4(length)`
bytes of the data blob starting at the entry's offset, XORing byte `j` of
that slice with key byte `j mod 32` (`j` local to the slice), and
truncating the result to `length` bytes reproduces the original file
contents byte-identically. -/
theorem C1_roundtrip (cands : List Candidate) (absOut key : String)
    (hkey : (utf8Bytes key).length = 32)
    (i : Nat) (hi : i < (buildManifest (scan cands absOut) 0).length) :
    (xorDecrypt32 (utf8Bytes key) 0
        (((writeBlob (scan cands absOut) key []).drop
            ((buildManifest (scan cands absOut) 0).getD i dEntry).offset).take
          (padUp4 ((buildManifest (scan cands absOut) 0).getD i dEntry).length))).take
        ((buildManifest (scan cands absOut) 0).getD i dEntry).length =
      ((scan cands absOut).getD i dCand).content := by
  have hlen := AGK.buildManifest_length (scan cands absOut) 0
  have hi' : i < (scan cands absOut).length := by rw [hlen] at hi; exact hi
  rw [AGK.writeBlob_eq, List.nil_append, AGK.buildManifest_getD _ 0 i hi']
  dsimp only
  rw [Nat.zero_add, AGK.blobList_drop, AGK.drop_getD_cons _ i hi', AGK.blobList_take_head,
    AGK.xorDecrypt32_eq_xorWithKey _ hkey]
  unfold xor_encrypt
  rw [AGK.xorWithKey_xorWithKey]
  exact AGK.padBytes_take _

/-- Concrete candidate for the C1 witness. -/
def w1 : Candidate := ⟨"a.txt", "a.txt", "/src/a.txt", [104, 101, 108, 108, 111]⟩

/-- The repository's build-time key, from `build_assets.py` line 16. -/
def wKey : String := "my-secret-game-key-32-bytes!!!!!"

/-- Witness for C1 on a one-file tree with the repository's key. -/
theorem C1_witness :
    (utf8Bytes wKey).length = 32 ∧
      0 < (buildManifest (scan [w1] "/out.pak") 0).length ∧
      (xorDecrypt32 (utf8Bytes wKey) 0
          (((writeBlob (scan [w1] "/out.pak") wKey []).drop
              ((buildManifest (scan [w1] "/out.pak") 0).getD 0 dEntry).offset).take
            (padUp4 ((buildManifest (scan [w1] "/out.pak") 0).getD 0 dEntry).length))).take
          ((buildManifest (scan [w1] "/out.pak") 0).getD 0 dEntry).length =
        ((scan [w1] "/out.pak").getD 0 dCand).content :=
  ⟨by decide, by decide, C1_roundtrip [w1] "/out.pak" wKey (by decide) 0 (by decide)⟩

/-- C4: under a 32-byte key, byte `j` of entry `i`'s region of the blob is
byte `j` of that file's zero-padded payload XORed with key byte `j % 32` —
the cipher index restarts at 0 independently for every file, and padding
bytes are enciphered exactly like content bytes (`j` ranges over the whole
padded payload). -/
theorem C4_cipher_per_file (cands : List Candidate) (absOut key : String)
    (hkey : (utf8Bytes key).length = 32)
    (i j : Nat) (hi : i < (buildManifest (scan cands absOut) 0).length)
    (hj : j < padUp4 ((buildManifest (scan cands absOut) 0).getD i dEntry).length) :
    (writeBlob (scan cands absOut) key []).getD
        (((buildManifest (scan cands absOut) 0).getD i dEntry).offset + j) 0 =
      (padBytes ((scan cands absOut).getD i dCand).content).getD j 0 ^^^
        (utf8Bytes key).getD (j % 32) 0 := by
  have hlen := AGK.buildManifest_length (scan cands absOut) 0
  have hi' : i < (scan cands absOut).length := by rw [hlen] at hi; exact hi
  rw [AGK.buildManifest_getD _ 0 i hi'] at hj ⊢
  dsimp only at hj ⊢
  rw [AGK.writeBlob_eq, List.nil_append, Nat.zero_add]
  rw [← AGK.getD_drop, AGK.blobList_drop, AGK.drop_getD_cons _ i hi', AGK.blobList_cons]
  have hjlen :
      j < (xor_encrypt (padBytes ((scan cands absOut).getD i dCand).content) key).length := by
    rw [AGK.piece_length]
    exact hj
  rw [List.getD_append _ _ _ _ hjlen]
  unfold xor_encrypt
  rw [AGK.xorWithKey_getD _ _ 0 j (by rw [AGK.padBytes_length]; exact hj)]
  rw [Nat.zero_add, hkey]

/-- Concrete candidate for the C4 witness: 3 content bytes, 1 pad byte. -/
def w4 : Candidate := ⟨"d.bin", "d.bin", "/src/d.bin", [7, 8, 9]⟩

/-- Witness for C4 at the padding byte `j = 3` of a 3-byte file. -/
theorem C4_witness :
    (utf8Bytes wKey).length = 32 ∧
      0 < (buildManifest (scan [w4] "/out.pak") 0).length ∧
      3 < padUp4 ((buildManifest (scan [w4] "/out.pak") 0).getD 0 dEntry).length ∧
      (writeBlob (scan [w4] "/out.pak") wKey []).getD
          (((buildManifest (scan [w4] "/out.pak") 0).getD 0 dEntry).offset + 3) 0 =
        (padBytes ((scan [w4] "/out.pak").getD 0 dCand).content).getD 3 0 ^^^
          (utf8Bytes wKey).getD (3 % 32) 0 :=
  ⟨by decide, by decide, by decide,
    C4_cipher_per_file [w4] "/out.pak" wKey (by decide) 0 3 (by decide) (by decide)⟩

/-- C2: for a non-empty eligible file sequence whose fields fit in u32, the
archive bytes are exactly: the entry count (u32 little-endian); then per
entry the path byte length, the path's UTF-8 bytes with no terminator, the
offset and the length (u32 little-endian each); then the contiguous
enciphered padded payloads with no separators. -/
theorem C2_archive_layout (cands : List Candidate) (absOut key : String)
    (hne : scan cands absOut ≠ [])
    (hcount : (scan cands absOut).length < 4294967296)
    (hf : ∀ e ∈ buildManifest (scan cands absOut) 0, entryFits e) :
    create_asset_pack cands absOut key =
      PackResult.written
        (le4 (buildManifest (scan cands absOut) 0).length
          ++ ((buildManifest (scan cands absOut) 0).map specEntryBytes).flatten
          ++ blobList (scan cands absOut) key) :=
  AGK.create_asset_pack_written cands absOut key hne hcount hf

/-- Concrete candidates for the C2 witness: the spec's scenario of a 5-byte
file and an empty file in a subdirectory. -/
def w2a : Candidate := ⟨"a.txt", "a.txt", "/media/a.txt", [104, 101, 108, 108, 111]⟩

/-- Second C2 witness candidate. -/
def w2b : Candidate := ⟨"b.bin", "sub/b.bin", "/media/sub/b.bin", []⟩

/-- Witness for C2 on the two-file scenario. -/
theorem C2_witness :
    scan [w2a, w2b] "/media/assets.pak" ≠ [] ∧
      (scan [w2a, w2b] "/media/assets.pak").length < 4294967296 ∧
      (∀ e ∈ buildManifest (scan [w2a, w2b] "/media/assets.pak") 0, entryFits e) ∧
      create_asset_pack [w2a, w2b] "/media/assets.pak" wKey =
        PackResult.written
          (le4 (buildManifest (scan [w2a, w2b] "/media/assets.pak") 0).length
            ++ ((buildManifest (scan [w2a, w2b] "/media/assets.pak") 0).map
                specEntryBytes).flatten
            ++ blobList (scan [w2a, w2b] "/media/assets.pak") wKey) :=
  ⟨by decide, by decide, by decide,
    C2_archive_layout [w2a, w2b] "/media/assets.pak" wKey (by decide) (by decide) (by decide)⟩

/-- C9 amended: for any two entries `i < j`, the later offset equals the
earlier offset plus the sum of the rounded-up lengths of all entries from
`i` through `j - 1` — a single `round_up_4(entries[i].length)` term only
when `j = i + 1` — and the first entry's offset is 0. -/
theorem C9_offset_sum (cands : List Candidate) (absOut : String) (i j : Nat)
    (hij : i < j) (hj : j < (buildManifest (scan cands absOut) 0).length) :
    ((buildManifest (scan cands absOut) 0).getD j dEntry).offset =
      ((buildManifest (scan cands absOut) 0).getD i dEntry).offset +
        ((((buildManifest (scan cands absOut) 0).drop i).take (j - i)).map
            fun e => padUp4 e.length).sum ∧
      ((buildManifest (scan cands absOut) 0).getD 0 dEntry).offset = 0 := by
  have hlen := AGK.buildManifest_length (scan cands absOut) 0
  have hj' : j < (scan cands absOut).length := by rw [hlen] at hj; exact hj
  have hi' : i < (scan cands absOut).length := by omega
  have h0 : 0 < (scan cands absOut).length := by omega
  constructor
  · rw [AGK.buildManifest_getD _ 0 j hj', AGK.buildManifest_getD _ 0 i hi']
    dsimp only
    rw [List.map_take, List.map_drop, AGK.buildManifest_map_pad,
      ← List.map_drop, ← List.map_take]
    have hsum :
        ((((scan cands absOut).drop i).take (j - i)).map
            fun c => padUp4 c.content.length).sum =
          sumPad (((scan cands absOut).drop i).take (j - i)) := rfl
    rw [hsum]
    have htake : (scan cands absOut).take j =
        (scan cands absOut).take i ++ ((scan cands absOut).drop i).take (j - i) := by
      have hj2 : j = i + (j - i) := by omega
      conv_lhs => rw [hj2]
      exact List.take_add _ i (j - i)
    rw [htake, AGK.sumPad_append]
    omega
  · rw [AGK.buildManifest_getD _ 0 0 h0]
    simp [sumPad]

/-- First of three 4-byte files for the C9 counterexample and witness. -/
def c9a : Candidate := ⟨"a.bin", "a.bin", "/src/a.bin", [1, 2, 3, 4]⟩

/-- Second of three 4-byte files for the C9 counterexample and witness. -/
def c9b : Candidate := ⟨"b.bin", "b.bin", "/src/b.bin", [5, 6, 7, 8]⟩

/-- Third of three 4-byte files for the C9 counterexample and witness. -/
def c9c : Candidate := ⟨"c.bin", "c.bin", "/src/c.bin", [9, 10, 11, 12]⟩

/-- C9 counterexample: with three 4-byte files and the non-adjacent pair
`i = 0`, `j = 2`, the third entry's offset is 8, while the claim's formula
`entries[0].offset + round_up_4(entries[0].length)` gives 4. -/
theorem C9_counterexample :
    0 < 2 ∧
      2 < (buildManifest (scan [c9a, c9b, c9c] "/out/assets.pak") 0).length ∧
      ¬ ((buildManifest (scan [c9a, c9b, c9c] "/out/assets.pak") 0).getD 2 dEntry).offset =
          ((buildManifest (scan [c9a, c9b, c9c] "/out/assets.pak") 0).getD 0 dEntry).offset +
            padUp4 ((buildManifest (scan [c9a, c9b, c9c] "/out/assets.pak") 0).getD 0
                dEntry).length := by
  exact ⟨by decide, by decide, by decide⟩

/-- Witness for C9's amended sum formula at `i = 0`, `j = 2`. -/
theorem C9_witness :
    0 < 2 ∧
      2 < (buildManifest (scan [c9a, c9b, c9c] "/out/assets.pak") 0).length ∧
      (((buildManifest (scan [c9a, c9b, c9c] "/out/assets.pak") 0).getD 2 dEntry).offset =
          ((buildManifest (scan [c9a, c9b, c9c] "/out/assets.pak") 0).getD 0 dEntry).offset +
            ((((buildManifest (scan [c9a, c9b, c9c] "/out/assets.pak") 0).drop 0).take
                  (2 - 0)).map fun e => padUp4 e.length).sum ∧
        ((buildManifest (scan [c9a, c9b, c9c] "/out/assets.pak") 0).getD 0 dEntry).offset = 0) :=
  ⟨by decide, by decide,
    C9_offset_sum [c9a, c9b, c9c] "/out/assets.pak" 0 2 (by decide) (by decide)⟩

/-- Concrete candidates for the C3 witness. -/
def w3a : Candidate := ⟨"x.dat", "x.dat", "/src/x.dat", [1, 2, 3, 4, 5]⟩

/-- Second C3 witness candidate. -/
def w3b : Candidate := ⟨"y.dat", "y.dat", "/src/y.dat", [6]⟩

/-- Witness for C3 on a two-file tree. -/
theorem C3_witness :
    buildManifest (scan [w3a, w3b] "/out.pak") 0 ≠ [] ∧
      (((buildManifest (scan [w3a, w3b] "/out.pak") 0).getD 0 dEntry).offset = 0 ∧
        ∀ i, i + 1 < (buildManifest (scan [w3a, w3b] "/out.pak") 0).length →
          ((buildManifest (scan [w3a, w3b] "/out.pak") 0).getD (i + 1) dEntry).offset =
            ((buildManifest (scan [w3a, w3b] "/out.pak") 0).getD i dEntry).offset +
              padUp4 ((buildManifest (scan [w3a, w3b] "/out.pak") 0).getD i dEntry).length) :=
  ⟨by decide, C3_offset_invariant [w3a, w3b] "/out.pak" (by decide)⟩

/-- Candidate kept by the scanner in the C6 witness. -/
def w6a : Candidate := ⟨"keep.txt", "keep.txt", "/src/keep.txt", [1]⟩

/-- Reserved-name candidate excluded in the C6 witness. -/
def w6b : Candidate := ⟨"bytecode.byc", "bytecode.byc", "/src/bytecode.byc", [2]⟩

/-- Previous-output candidate excluded in the C6 witness. -/
def w6c : Candidate := ⟨"assets.pak", "assets.pak", "/out/assets.pak", [3]⟩

/-- Witness for C6 on a tree holding a kept file, a `bytecode.byc` and a
stale output file. -/
theorem C6_witness :
    0 < (buildManifest (scan [w6a, w6b, w6c] "/out/assets.pak") 0).length ∧
      (((scan [w6a, w6b, w6c] "/out/assets.pak").getD 0 dCand).name ≠ "bytecode.byc" ∧
        ((scan [w6a, w6b, w6c] "/out/assets.pak").getD 0 dCand).normAbsPath ≠
          "/out/assets.pak") :=
  ⟨by decide, C6_exclusion [w6a, w6b, w6c] "/out/assets.pak" 0 (by decide)⟩

/-- Tree whose only file is the excluded `bytecode.byc`, for the C8
witness. -/
def w8 : Candidate := ⟨"bytecode.byc", "bytecode.byc", "/q/bytecode.byc", [9, 9]⟩

/-- Witness for C8 on a tree with no eligible files. -/
theorem C8_witness :
    (create_asset_pack [w8] "/q/assets.pak" wKey = PackResult.noFiles ↔
        scan [w8] "/q/assets.pak" = []) ∧
      ∀ out : List Nat, create_asset_pack [w8] "/q/assets.pak" wKey = PackResult.written out →
        scan [w8] "/q/assets.pak" ≠ [] :=
  C8_empty_result [w8] "/q/assets.pak" wKey
